import Mathlib

/-
Verification of the CKAN plugin-interface module
(`ckan/plugins/interfaces.py`): the `Interface` base-class capability
checks, the default hook bodies, and the capability registry / hook
dispatcher described by the design spec (registration, type routing,
accumulating dispatch, auth dispatch).
-/

set_option autoImplicit false

namespace CkanPlugins

/-! ## Interface capability checks

Shallow embedding of `Interface.implemented_by` / `Interface.provided_by`
(`ckan/plugins/interfaces.py`, lines 31-44).  A Python value is either a
class — carrying an optional `_implements` attribute, a set of interface
identities — or a non-class value.  Interfaces are identified by `Nat`. -/

inductive PyError where
  | typeError
  deriving DecidableEq

/-- A Python value as inspected by `implemented_by`: a class whose
optional `_implements` attribute lists the interface identities it
declared, or a non-class value. -/
inductive PyVal where
  | cls (implementsAttr : Option (List Nat))
  | nonClass
  deriving DecidableEq

/-- Embedding of `Interface.implemented_by(cls, other)`:
`TypeError` when `other` is not a class; otherwise `cls in
other._implements`, with the `AttributeError` from a missing
`_implements` caught and turned into `False`. -/
def implementedBy (iface : Nat) (other : PyVal) : Except PyError Bool :=
  match other with
  | .nonClass => .error .typeError
  | .cls none => .ok false
  | .cls (some s) => .ok (s.contains iface)

/-- A Python instance: its `__class__`, plus any instance-level
attribute of the same name (which the capability check never reads). -/
structure PyInstance where
  cls : PyVal
  instAttr : Option (List Nat)
  deriving DecidableEq

/-- Embedding of `Interface.provided_by(cls, instance)`:
`cls.implemented_by(instance.__class__)`. -/
def providedBy (iface : Nat) (inst : PyInstance) : Except PyError Bool :=
  implementedBy iface inst.cls

/-! ## Default hook bodies

The default (non-overridden) bodies of the filter-style hooks, embedded
from the source.  `dataset_facets`, `before_map`, `filter` and `abort`
end in `return facets_dict` / `return map` / `return stream` /
`return (status_code, detail, headers, comment)`. -/

/-- An ordered facets mapping (Python `OrderedDict`), as a list of
key/label pairs without duplicate keys in normal use. -/
abbrev Facets := List (String × String)

namespace IFacets

/-- Default body of `IFacets.dataset_facets`: `return facets_dict`. -/
def dataset_facets (facets_dict : Facets) (_package_type : String) : Facets :=
  facets_dict

end IFacets

namespace IRoutes

/-- Default body of `IRoutes.before_map`: `return map`. -/
def before_map {μ : Type} (map : μ) : μ :=
  map

end IRoutes

namespace IGenshiStreamFilter

/-- Default body of `IGenshiStreamFilter.filter`: `return stream`. -/
def filter {σ : Type} (stream : σ) : σ :=
  stream

end IGenshiStreamFilter

namespace IAuthenticator

/-- Default body of `IAuthenticator.abort`:
`return (status_code, detail, headers, comment)`. -/
def abort (status_code : Nat) (detail : String)
    (headers : List (String × String)) (comment : String) :
    Nat × String × List (String × String) × String :=
  (status_code, detail, headers, comment)

end IAuthenticator

/-! ## Capability registry: type-routed registration

The registry and its `register` / `route` operations are not in the
source excerpt (only the `IDatasetForm` / `IGroupForm` docstrings that
describe them), so they are modelled from the spec. -/

/-- Modelled from the spec: a plugin's registration-relevant declaration
for one routing interface (`IDatasetForm` / `IGroupForm`) — its
identity, the type keys returned by `package_types()` /
`group_types()`, and its `is_fallback()` answer.  The plugin loader
itself is missing from the source excerpt. -/
structure PluginDecl where
  pid : Nat
  types : List String
  fallback : Bool
  deriving DecidableEq

inductive ConfigError where
  | duplicateTypeKey
  | duplicateFallback
  deriving DecidableEq

/-- Modelled from the spec: the registry state for one routing
interface — the type-key-to-owner mapping plus the optional fallback
plugin. -/
structure RegState where
  owners : List (String × Nat)
  fb : Option Nat
  deriving DecidableEq

def emptyReg : RegState := ⟨[], none⟩

/-- First-match lookup of a type key's owning plugin. -/
def lookupOwner (owners : List (String × Nat)) (t : String) : Option Nat :=
  match owners with
  | [] => none
  | (k, pid) :: rest => if k = t then some pid else lookupOwner rest t

/-- True when some type key of `p` is already claimed by a different
plugin in `st`. -/
def typeConflict (st : RegState) (p : PluginDecl) : Bool :=
  p.types.any fun t =>
    match lookupOwner st.owners t with
    | some q => decide (q ≠ p.pid)
    | none => false

/-- Modelled from the spec: `register` for one plugin.  Fails with a
`ConfigurationError` — leaving the state untouched — when a type key is
already claimed by a different plugin or a second fallback is declared;
otherwise commits the plugin's type keys and fallback status. -/
def registerOne (st : RegState) (p : PluginDecl) : RegState × Option ConfigError :=
  if typeConflict st p then
    (st, some .duplicateTypeKey)
  else if p.fallback && st.fb.isSome then
    (st, some .duplicateFallback)
  else
    ({ owners := st.owners ++ p.types.map fun t => (t, p.pid),
       fb := if p.fallback then some p.pid else st.fb }, none)

/-- Modelled from the spec: the startup load phase registers plugins in
configuration order, aborting at the first configuration error. -/
def registerFrom (st : RegState) : List PluginDecl → RegState × Option ConfigError
  | [] => (st, none)
  | p :: rest =>
    match registerOne st p with
    | (st1, none) => registerFrom st1 rest
    | (st1, some e) => (st1, some e)

/-- The plugin resolved by type routing: a registered plugin, or the
built-in default (`DefaultDatasetForm` / `DefaultGroupForm`). -/
inductive RouteResult where
  | plugin (pid : Nat)
  | builtinDefault
  deriving DecidableEq

/-- Modelled from the spec: `route(interface, type_key)` — the owning
plugin for the key, else the fallback plugin, else the built-in
default. -/
def route (st : RegState) (typeKey : String) : RouteResult :=
  match lookupOwner st.owners typeKey with
  | some pid => .plugin pid
  | none =>
    match st.fb with
    | some pid => .plugin pid
    | none => .builtinDefault

/-! ### Registry lemmas -/

theorem lookupOwner_append (a b : List (String × Nat)) (t : String) :
    lookupOwner (a ++ b) t =
      match lookupOwner a t with
      | some v => some v
      | none => lookupOwner b t := by
  induction a with
  | nil => simp [lookupOwner]
  | cons hd tl ih =>
    obtain ⟨k, pid⟩ := hd
    by_cases hk : k = t <;> simp [lookupOwner, hk, ih]

theorem lookupOwner_map_self (ts : List String) (pid : Nat) (t : String) :
    lookupOwner (ts.map fun s => (s, pid)) t =
      if ts.contains t then some pid else none := by
  induction ts with
  | nil => simp [lookupOwner]
  | cons hd tl ih =>
    by_cases hk : hd = t
    · simp [lookupOwner, hk]
    · have h2 : ¬ t = hd := fun he => hk he.symm
      simp [lookupOwner, hk, ih, h2]

theorem registerFrom_cons (st : RegState) (p : PluginDecl) (rest : List PluginDecl) :
    registerFrom st (p :: rest) =
      match registerOne st p with
      | (st1, none) => registerFrom st1 rest
      | (st1, some e) => (st1, some e) := rfl

theorem registerOne_success (st : RegState) (p : PluginDecl) (st1 : RegState)
    (h : registerOne st p = (st1, none)) :
    typeConflict st p = false ∧ (p.fallback && st.fb.isSome) = false ∧
    st1.owners = st.owners ++ (p.types.map fun t => (t, p.pid)) ∧
    st1.fb = (if p.fallback then some p.pid else st.fb) := by
  unfold registerOne at h
  by_cases h1 : typeConflict st p
  · simp [h1] at h
  · by_cases h2 : p.fallback && st.fb.isSome
    · simp [h1, h2] at h
    · simp [h1, h2] at h
      exact ⟨by simp [h1], by simp [h2], by rw [← h], by rw [← h]⟩

theorem typeConflict_false_owner (st : RegState) (p : PluginDecl)
    (h : typeConflict st p = false) (t : String) (ht : t ∈ p.types) (q : Nat)
    (hq : lookupOwner st.owners t = some q) : q = p.pid := by
  unfold typeConflict at h
  rw [List.any_eq_false] at h
  have := h t ht
  rw [hq] at this
  simpa using this

theorem registerFrom_lookup_mono (ps : List PluginDecl) (st st' : RegState)
    (h : registerFrom st ps = (st', none)) (t : String) (q : Nat)
    (hq : lookupOwner st.owners t = some q) :
    lookupOwner st'.owners t = some q := by
  induction ps generalizing st with
  | nil => simp [registerFrom] at h; exact h ▸ hq
  | cons p rest ih =>
    rw [registerFrom_cons] at h
    rcases hone : registerOne st p with ⟨st1, e⟩
    rw [hone] at h
    cases e with
    | none =>
      obtain ⟨-, -, how, -⟩ := registerOne_success st p st1 hone
      refine ih st1 ?_ ?_
      · exact h
      · rw [how, lookupOwner_append, hq]
    | some e => simp at h

theorem registerFrom_owner_complete (ps : List PluginDecl) (st st' : RegState)
    (h : registerFrom st ps = (st', none)) (p : PluginDecl) (hp : p ∈ ps)
    (t : String) (ht : t ∈ p.types) :
    lookupOwner st'.owners t = some p.pid := by
  induction ps generalizing st with
  | nil => simp at hp
  | cons hd rest ih =>
    rw [registerFrom_cons] at h
    rcases hone : registerOne st hd with ⟨st1, e⟩
    rw [hone] at h
    cases e with
    | none =>
      rcases List.mem_cons.mp hp with hp | hp
      · subst hp
        obtain ⟨hc, -, how, -⟩ := registerOne_success st p st1 hone
        refine registerFrom_lookup_mono rest st1 st' h t p.pid ?_
        rw [how, lookupOwner_append]
        rcases hlk : lookupOwner st.owners t with _ | q
        · rw [lookupOwner_map_self]
          simp [ht]
        · rw [typeConflict_false_owner st p hc t ht q hlk]
      · exact ih st1 h hp
    | some e => simp at h

theorem registerFrom_owner_none (ps : List PluginDecl) (st st' : RegState)
    (h : registerFrom st ps = (st', none)) (t : String)
    (h0 : lookupOwner st.owners t = none) (hnone : ∀ p ∈ ps, t ∉ p.types) :
    lookupOwner st'.owners t = none := by
  induction ps generalizing st with
  | nil => simp [registerFrom] at h; exact h ▸ h0
  | cons hd rest ih =>
    rw [registerFrom_cons] at h
    rcases hone : registerOne st hd with ⟨st1, e⟩
    rw [hone] at h
    cases e with
    | none =>
      obtain ⟨-, -, how, -⟩ := registerOne_success st hd st1 hone
      refine ih st1 h ?_ fun p hp => hnone p (List.mem_cons_of_mem hd hp)
      rw [how, lookupOwner_append, h0, lookupOwner_map_self]
      have hni : t ∉ hd.types := hnone hd (List.mem_cons_self hd rest)
      simp [hni]
    | some e => simp at h

theorem registerFrom_fb_mono (ps : List PluginDecl) (st st' : RegState)
    (h : registerFrom st ps = (st', none)) (pid : Nat) (hfb : st.fb = some pid) :
    st'.fb = some pid := by
  induction ps generalizing st with
  | nil => simp [registerFrom] at h; exact h ▸ hfb
  | cons hd rest ih =>
    rw [registerFrom_cons] at h
    rcases hone : registerOne st hd with ⟨st1, e⟩
    rw [hone] at h
    cases e with
    | none =>
      obtain ⟨-, hnb, -, hfb1⟩ := registerOne_success st hd st1 hone
      have hnf : hd.fallback = false := by
        by_contra hc
        rw [Bool.not_eq_false] at hc
        rw [hc, hfb] at hnb
        simp at hnb
      refine ih st1 h ?_
      rw [hfb1, hnf]
      simpa using hfb
    | some e => simp at h

theorem registerFrom_fb_complete (ps : List PluginDecl) (st st' : RegState)
    (h : registerFrom st ps = (st', none)) (p : PluginDecl) (hp : p ∈ ps)
    (hf : p.fallback = true) : st'.fb = some p.pid := by
  induction ps generalizing st with
  | nil => simp at hp
  | cons hd rest ih =>
    rw [registerFrom_cons] at h
    rcases hone : registerOne st hd with ⟨st1, e⟩
    rw [hone] at h
    cases e with
    | none =>
      rcases List.mem_cons.mp hp with hp | hp
      · subst hp
        obtain ⟨-, -, -, hfb1⟩ := registerOne_success st p st1 hone
        refine registerFrom_fb_mono rest st1 st' h p.pid ?_
        rw [hfb1, hf]
        simp
      · exact ih st1 h hp
    | some e => simp at h

theorem registerFrom_fb_none (ps : List PluginDecl) (st st' : RegState)
    (h : registerFrom st ps = (st', none)) (h0 : st.fb = none)
    (hnf : ∀ p ∈ ps, p.fallback = false) : st'.fb = none := by
  induction ps generalizing st with
  | nil => simp [registerFrom] at h; exact h ▸ h0
  | cons hd rest ih =>
    rw [registerFrom_cons] at h
    rcases hone : registerOne st hd with ⟨st1, e⟩
    rw [hone] at h
    cases e with
    | none =>
      obtain ⟨-, -, -, hfb1⟩ := registerOne_success st hd st1 hone
      refine ih st1 h ?_ fun p hp => hnf p (List.mem_cons_of_mem hd hp)
      rw [hfb1, hnf hd (List.mem_cons_self hd rest)]
      simpa using h0
    | some e => simp at h

theorem registerFrom_append (st : RegState) (as bs : List PluginDecl) :
    registerFrom st (as ++ bs) =
      match registerFrom st as with
      | (st1, none) => registerFrom st1 bs
      | (st1, some e) => (st1, some e) := by
  induction as generalizing st with
  | nil => simp [registerFrom]
  | cons hd tl ih =>
    rw [List.cons_append, registerFrom_cons, registerFrom_cons st hd tl]
    rcases hone : registerOne st hd with ⟨st1, e⟩
    cases e with
    | none => simpa using ih st1
    | some e => simp

/-! ### Claim theorems: type routing and registration conflicts -/

/-- C1: after a successful startup registration of `ps`, `route`
returns the unique registered owner of a type key when some plugin's
declared type set contains it; when no plugin declares the key it
returns the registered fallback plugin, and the built-in default when
no fallback is registered. -/
theorem route_resolution (ps : List PluginDecl) (st : RegState) (key : String)
    (hreg : registerFrom emptyReg ps = (st, none)) :
    (∀ p ∈ ps, key ∈ p.types → route st key = RouteResult.plugin p.pid) ∧
    ((∀ p ∈ ps, key ∉ p.types) →
      (∀ q ∈ ps, q.fallback = true → route st key = RouteResult.plugin q.pid) ∧
      ((∀ q ∈ ps, q.fallback = false) →
        route st key = RouteResult.builtinDefault)) := by
  constructor
  · intro p hp hkey
    have := registerFrom_owner_complete ps emptyReg st hreg p hp key hkey
    simp [route, this]
  · intro hnone
    have hlk : lookupOwner st.owners key = none :=
      registerFrom_owner_none ps emptyReg st hreg key rfl hnone
    constructor
    · intro q hq hqf
      have := registerFrom_fb_complete ps emptyReg st hreg q hq hqf
      simp [route, hlk, this]
    · intro hnf
      have := registerFrom_fb_none ps emptyReg st hreg rfl hnf
      simp [route, hlk, this]

/-- Witness for C1, the spec's scenario: plugin 1 owns type
`"dataset"`, plugin 2 is the fallback; routing `"dataset"` yields
plugin 1 and routing `"other"` yields plugin 2; with no fallback
registered, routing `"other"` yields the built-in default. -/
theorem route_resolution_witness :
    route ⟨[("dataset", 1)], some 2⟩ "dataset" = RouteResult.plugin 1 ∧
    route ⟨[("dataset", 1)], some 2⟩ "other" = RouteResult.plugin 2 ∧
    route ⟨[("dataset", 1)], none⟩ "other" = RouteResult.builtinDefault := by
  refine ⟨?_, ?_, ?_⟩
  · exact (route_resolution [⟨1, ["dataset"], false⟩, ⟨2, [], true⟩]
      ⟨[("dataset", 1)], some 2⟩ "dataset" (by decide)).1
      ⟨1, ["dataset"], false⟩ (by decide) (by decide)
  · exact ((route_resolution [⟨1, ["dataset"], false⟩, ⟨2, [], true⟩]
      ⟨[("dataset", 1)], some 2⟩ "other" (by decide)).2 (by decide)).1
      ⟨2, [], true⟩ (by decide) (by decide)
  · exact ((route_resolution [⟨1, ["dataset"], false⟩]
      ⟨[("dataset", 1)], none⟩ "other" (by decide)).2 (by decide)).2 (by decide)

/-- C2: extending a successfully registered sequence with a plugin
that declares a type key already claimed by a different plugin makes
registration fail with a configuration error, and the registry state
is exactly the state before the failing register call. -/
theorem register_duplicate_typekey (ps : List PluginDecl) (st : RegState)
    (p q : PluginDecl) (t : String)
    (hreg : registerFrom emptyReg ps = (st, none))
    (hq : q ∈ ps) (hqt : t ∈ q.types) (hpt : t ∈ p.types)
    (hne : q.pid ≠ p.pid) :
    registerFrom emptyReg (ps ++ [p]) = (st, some ConfigError.duplicateTypeKey) := by
  have hlk : lookupOwner st.owners t = some q.pid :=
    registerFrom_owner_complete ps emptyReg st hreg q hq t hqt
  have hconf : typeConflict st p = true := by
    unfold typeConflict
    rw [List.any_eq_true]
    exact ⟨t, hpt, by rw [hlk]; simpa using hne⟩
  have hone : registerOne st p = (st, some ConfigError.duplicateTypeKey) := by
    unfold registerOne
    rw [hconf]
    simp
  rw [registerFrom_append, hreg]
  show registerFrom st [p] = (st, some ConfigError.duplicateTypeKey)
  rw [registerFrom_cons, hone]

/-- Witness for C2: plugin 1 owns `"dataset"`; registering plugin 2,
which also claims `"dataset"`, fails with `duplicateTypeKey` and
leaves the registry as it was. -/
theorem register_duplicate_typekey_witness :
    registerFrom emptyReg
        [⟨1, ["dataset"], false⟩, ⟨2, ["dataset"], false⟩] =
      (⟨[("dataset", 1)], none⟩, some ConfigError.duplicateTypeKey) :=
  register_duplicate_typekey [⟨1, ["dataset"], false⟩]
    ⟨[("dataset", 1)], none⟩ ⟨2, ["dataset"], false⟩ ⟨1, ["dataset"], false⟩
    "dataset" (by decide) (by decide) (by decide) (by decide) (by decide)

/-- C3: extending a successfully registered sequence that already
contains a fallback plugin with a second plugin that also declares
itself fallback makes registration fail with a configuration error,
leaving the registry state unchanged. -/
theorem register_duplicate_fallback (ps : List PluginDecl) (st : RegState)
    (p q : PluginDecl)
    (hreg : registerFrom emptyReg ps = (st, none))
    (hq : q ∈ ps) (hqf : q.fallback = true) (hpf : p.fallback = true) :
    ∃ e, registerFrom emptyReg (ps ++ [p]) = (st, some e) := by
  have hfb : st.fb = some q.pid :=
    registerFrom_fb_complete ps emptyReg st hreg q hq hqf
  rcases hone : registerOne st p with ⟨st1, e⟩
  cases e with
  | none =>
    obtain ⟨-, hnb, -, -⟩ := registerOne_success st p st1 hone
    rw [hpf, hfb] at hnb
    simp at hnb
  | some e =>
    refine ⟨e, ?_⟩
    rw [registerFrom_append, hreg]
    show registerFrom st [p] = (st, some e)
    rw [registerFrom_cons, hone]
    have hst : st1 = st := by
      unfold registerOne at hone
      by_cases h1 : typeConflict st p
      · simp [h1] at hone
        exact hone.1.symm
      · by_cases h2 : p.fallback && st.fb.isSome
        · simp [h1, h2] at hone
          exact hone.1.symm
        · simp [h1, h2] at hone
    rw [hst]

/-- Witness for C3: plugin 1 is registered as fallback; registering
plugin 2, which also declares itself fallback, fails and leaves the
registry unchanged. -/
theorem register_duplicate_fallback_witness :
    ∃ e, registerFrom emptyReg [⟨1, [], true⟩, ⟨2, [], true⟩] =
      (⟨[], some 1⟩, some e) :=
  register_duplicate_fallback [⟨1, [], true⟩] ⟨[], some 1⟩
    ⟨2, [], true⟩ ⟨1, [], true⟩ (by decide) (by decide) (by decide) (by decide)

/-! ## Accumulating dispatch over ordered facets mappings

The `IFacets` docstring specifies Python `OrderedDict` semantics — the
key order is display order and plugins extend the dict in place — and
that each active `IFacets` plugin mutates the dict in configuration
order.  An `OrderedDict` is embedded as an association list; a plugin's
mutation is the sequence of key/label assignments it performs. -/

/-- Keys of a facets mapping, in display order. -/
def odKeys (d : Facets) : List String := d.map Prod.fst

/-- Python `OrderedDict` assignment `d[k] = v`: an existing key keeps
its position and gets the new value; a new key is appended at the
end. -/
def odInsert (d : Facets) (k v : String) : Facets :=
  if (odKeys d).contains k then
    d.map fun p => if p.1 = k then (k, v) else p
  else
    d ++ [(k, v)]

/-- First-match lookup in a facets mapping. -/
def odLookup (d : Facets) (k : String) : Option String :=
  match d with
  | [] => none
  | (k1, v1) :: rest => if k1 = k then some v1 else odLookup rest k

/-- One plugin's mutation of the facets dict: its assignments applied
in program order. -/
def applyOps (d : Facets) (ops : List (String × String)) : Facets :=
  ops.foldl (fun acc kv => odInsert acc kv.1 kv.2) d

/-- Modelled from the spec: accumulating dispatch of an `IFacets` hook
— each plugin's mutation is applied to the previous plugin's output,
in configuration order.  The dispatcher itself is not in the source
excerpt. -/
def dispatchFacets (plugins : List (List (String × String))) (d : Facets) : Facets :=
  match plugins with
  | [] => d
  | ops :: rest => dispatchFacets rest (applyOps d ops)

/-- The keys a sequence of assignments adds to a dict whose key list is
`seen`: first occurrences of keys not already present, in assignment
order. -/
def freshKeys (seen : List String) (ops : List (String × String)) : List String :=
  match ops with
  | [] => []
  | (k, _) :: rest =>
    if seen.contains k then freshKeys seen rest
    else k :: freshKeys (seen ++ [k]) rest

theorem odKeys_insert_mem (d : Facets) (k v : String)
    (h : (odKeys d).contains k = true) :
    odKeys (odInsert d k v) = odKeys d := by
  unfold odInsert
  rw [if_pos h]
  simp only [odKeys, List.map_map]
  refine List.map_congr_left fun p _ => ?_
  by_cases hp : p.1 = k <;> simp [hp]

theorem odKeys_insert_not_mem (d : Facets) (k v : String)
    (h : (odKeys d).contains k = false) :
    odKeys (odInsert d k v) = odKeys d ++ [k] := by
  unfold odInsert
  rw [h]
  simp [odKeys]

theorem odLookup_append_not_mem (d : Facets) (k v : String)
    (h : (odKeys d).contains k = false) :
    odLookup (d ++ [(k, v)]) k = some v := by
  have h' : k ∉ odKeys d := by simpa using h
  clear h
  induction d with
  | nil => simp [odLookup]
  | cons hd tl ih =>
    obtain ⟨k1, v1⟩ := hd
    rw [odKeys, List.map_cons, List.mem_cons] at h'
    push_neg at h'
    have h1 : ¬ k1 = k := fun he => h'.1 he.symm
    simp [odLookup, h1, ih h'.2]

theorem odLookup_overwrite_mem (d : Facets) (k v : String)
    (h : (odKeys d).contains k = true) :
    odLookup (d.map fun p => if p.1 = k then (k, v) else p) k = some v := by
  have h' : k ∈ odKeys d := by simpa using h
  clear h
  induction d with
  | nil => simp [odKeys] at h'
  | cons hd tl ih =>
    obtain ⟨k1, v1⟩ := hd
    simp only [List.map_cons]
    by_cases h1 : k1 = k
    · subst h1
      rw [show (if ((k1, v1) : String × String).1 = k1 then (k1, v) else (k1, v1)) =
          (k1, v) from by simp]
      simp [odLookup]
    · rw [show (if ((k1, v1) : String × String).1 = k then (k, v) else (k1, v1)) =
          (k1, v1) from by simp [h1]]
      have h2 : k ∈ odKeys tl := by
        rw [odKeys, List.map_cons, List.mem_cons] at h'
        rcases h' with h' | h'
        · exact absurd h'.symm h1
        · exact h'
      simp [odLookup, h1, ih h2]

theorem odLookup_insert_self (d : Facets) (k v : String) :
    odLookup (odInsert d k v) k = some v := by
  unfold odInsert
  rcases hc : (odKeys d).contains k with _ | _
  · simp only [Bool.false_eq_true, if_false]
    exact odLookup_append_not_mem d k v hc
  · simp only [if_true]
    exact odLookup_overwrite_mem d k v hc

theorem odKeys_applyOps (d : Facets) (ops : List (String × String)) :
    odKeys (applyOps d ops) = odKeys d ++ freshKeys (odKeys d) ops := by
  induction ops generalizing d with
  | nil => simp [applyOps, freshKeys]
  | cons hd rest ih =>
    obtain ⟨k, v⟩ := hd
    have hstep : applyOps d ((k, v) :: rest) = applyOps (odInsert d k v) rest := rfl
    rw [hstep]
    rcases hc : (odKeys d).contains k with _ | _
    · have hc' : k ∉ odKeys d := by simpa using hc
      rw [ih (odInsert d k v), odKeys_insert_not_mem d k v hc]
      simp [freshKeys, hc']
    · have hc' : k ∈ odKeys d := by simpa using hc
      rw [ih (odInsert d k v), odKeys_insert_mem d k v hc]
      simp [freshKeys, hc']

theorem applyOps_append (d : Facets) (as bs : List (String × String)) :
    applyOps d (as ++ bs) = applyOps (applyOps d as) bs := by
  simp [applyOps, List.foldl_append]

theorem dispatchFacets_eq_flatten (plugins : List (List (String × String)))
    (d : Facets) : dispatchFacets plugins d = applyOps d plugins.flatten := by
  induction plugins generalizing d with
  | nil => simp [dispatchFacets, applyOps]
  | cons ops rest ih =>
    rw [List.flatten_cons, applyOps_append]
    exact ih (applyOps d ops)

/-- C4: over any number of sequentially dispatched `IFacets` plugin
mutations, the final facets mapping's key order is the initial key
order followed by each newly added key in the order the plugins added
them — so keys added by later plugins appear after keys from earlier
plugins — while reassigning an existing key overwrites its value in
place and leaves every key's position unchanged. -/
theorem facets_order_preserved (d : Facets)
    (plugins : List (List (String × String))) :
    odKeys (dispatchFacets plugins d) =
      odKeys d ++ freshKeys (odKeys d) plugins.flatten ∧
    (∀ d' k v, odLookup (odInsert d' k v) k = some v) ∧
    (∀ d' k v, (odKeys d').contains k = true →
      odKeys (odInsert d' k v) = odKeys d') := by
  refine ⟨?_, odLookup_insert_self, odKeys_insert_mem⟩
  rw [dispatchFacets_eq_flatten, odKeys_applyOps]

/-- Witness for C4: starting from `license`, plugin 1 adds `groups`,
plugin 2 adds `tags` and then reassigns `groups`; the key order is
`license, groups, tags`, `groups` keeps its position, and its value is
the overwritten one. -/
theorem facets_order_preserved_witness :
    odKeys (dispatchFacets [[("groups", "Groups")],
        [("tags", "Tags"), ("groups", "Publisher")]] [("license", "License")]) =
      ["license", "groups", "tags"] ∧
    odLookup (odInsert [("groups", "Groups")] "groups" "Publisher") "groups" =
      some "Publisher" := by
  have h := facets_order_preserved [("license", "License")]
    [[("groups", "Groups")], [("tags", "Tags"), ("groups", "Publisher")]]
  exact ⟨h.1.trans (by decide), h.2.1 [("groups", "Groups")] "groups" "Publisher"⟩

/-! ## Accumulating dispatch: plugin providers and error propagation -/

/-- Modelled from the spec: a registered plugin as the dispatcher sees
it — its identity, the interfaces its class declared, and its hook on
the accumulated value. -/
structure RegPlugin where
  pid : Nat
  interfaces : List Nat
  hook : Facets → Facets

/-- Modelled from the spec: `providers_of(interface)` — the registered
plugins implementing the interface, in registration order. -/
def providersOf (iface : Nat) (reg : List RegPlugin) : List RegPlugin :=
  reg.filter fun p => p.interfaces.contains iface

/-- Modelled from the spec: accumulating (filter) dispatch — each hook
receives the previous hook's output; the final value is the result
after all hooks have run. -/
def dispatchAcc {α : Type} (hooks : List (α → α)) (x : α) : α :=
  match hooks with
  | [] => x
  | h :: rest => dispatchAcc rest (h x)

/-- Modelled from the spec: accumulating dispatch of hooks that can
raise — a raising hook aborts the chain, and the caller receives the
raised error instead of any partially transformed value. -/
def dispatchExc {ε α : Type} (hooks : List (α → Except ε α)) (x : α) :
    Except ε α :=
  match hooks with
  | [] => .ok x
  | h :: rest =>
    match h x with
    | .ok y => dispatchExc rest y
    | .error err => .error err

theorem dispatchAcc_eq_foldl {α : Type} (hooks : List (α → α)) (x : α) :
    dispatchAcc hooks x = hooks.foldl (fun a h => h a) x := by
  induction hooks generalizing x with
  | nil => rfl
  | cons h rest ih => simp [dispatchAcc, ih]

theorem dispatchAcc_append {α : Type} (hooks : List (α → α)) (h : α → α)
    (x : α) : dispatchAcc (hooks ++ [h]) x = h (dispatchAcc hooks x) := by
  induction hooks generalizing x with
  | nil => rfl
  | cons g rest ih => simp [dispatchAcc, ih]

theorem dispatchExc_cons {ε α : Type} (h : α → Except ε α)
    (rest : List (α → Except ε α)) (x : α) :
    dispatchExc (h :: rest) x =
      match h x with
      | .ok y => dispatchExc rest y
      | .error err => Except.error err := rfl

theorem dispatchExc_append {ε α : Type} (as bs : List (α → Except ε α))
    (x : α) :
    dispatchExc (as ++ bs) x =
      match dispatchExc as x with
      | .ok y => dispatchExc bs y
      | .error err => Except.error err := by
  induction as generalizing x with
  | nil => simp [dispatchExc]
  | cons h rest ih =>
    rw [List.cons_append, dispatchExc_cons, dispatchExc_cons h rest x]
    rcases hx : h x with err | y
    · rfl
    · exact ih y

/-- C5: during accumulating dispatch, a raising hook aborts the chain:
the final result is the raised error whatever hooks follow — so no
subsequent plugin's hook can influence the outcome — and the caller
receives the error, not a partially transformed value. -/
theorem dispatch_error_aborts {ε α : Type} (pre post : List (α → Except ε α))
    (bad : α → Except ε α) (x y : α) (err : ε)
    (h1 : dispatchExc pre x = .ok y) (h2 : bad y = .error err) :
    dispatchExc (pre ++ bad :: post) x = .error err := by
  rw [dispatchExc_append, h1]
  show (match bad y with
    | .ok z => dispatchExc post z
    | .error e => Except.error e) = _
  rw [h2]

/-- Witness for C5: of three hooks on `Nat` values, hook 2 raises;
dispatch returns that error even though hook 3 would have succeeded. -/
theorem dispatch_error_aborts_witness :
    dispatchExc [fun n : Nat => Except.ok (n + 1),
      fun _ : Nat => (Except.error 7 : Except Nat Nat),
      fun n : Nat => Except.ok (n * 2)] 0 = Except.error 7 :=
  dispatch_error_aborts [fun n : Nat => Except.ok (n + 1)]
    [fun n : Nat => Except.ok (n * 2)]
    (fun _ : Nat => (Except.error 7 : Except Nat Nat)) 0 1 7 rfl rfl

/-- C6: `providers_of` returns exactly the registered plugins that
declared the interface, as a sublist of the registry (so in
registration order), and accumulating dispatch over their hooks is the
left-to-right composition: threading the value through the hooks one
by one equals folding the hook list over the start value, and
appending one more hook applies it to the previous result. -/
theorem providers_dispatch (iface : Nat) (reg : List RegPlugin) (d : Facets) :
    (∀ p, p ∈ providersOf iface reg ↔
      p ∈ reg ∧ p.interfaces.contains iface = true) ∧
    List.Sublist (providersOf iface reg) reg ∧
    dispatchAcc ((providersOf iface reg).map RegPlugin.hook) d =
      ((providersOf iface reg).map RegPlugin.hook).foldl (fun a h => h a) d ∧
    (∀ (hooks : List (Facets → Facets)) (h : Facets → Facets) (x : Facets),
      dispatchAcc (hooks ++ [h]) x = h (dispatchAcc hooks x)) := by
  refine ⟨?_, ?_, ?_, fun hooks h x => dispatchAcc_append hooks h x⟩
  · intro p
    simp [providersOf, List.mem_filter]
  · exact List.filter_sublist reg
  · exact dispatchAcc_eq_foldl _ d

/-- Witness for C6 at a concrete registry: plugins 1 and 3 declare
interface 0, plugin 2 does not; `providersOf` keeps exactly plugins 1
and 3 in order, and dispatch threads the facets dict through both
hooks. -/
theorem providers_dispatch_witness :
    (providersOf 0 [⟨1, [0], fun d => odInsert d "groups" "Groups"⟩,
        ⟨2, [5], fun d => d⟩,
        ⟨3, [0], fun d => odInsert d "tags" "Tags"⟩]).map RegPlugin.pid =
      [1, 3] ∧
    dispatchAcc ((providersOf 0
        [⟨1, [0], fun d => odInsert d "groups" "Groups"⟩,
         ⟨2, [5], fun d => d⟩,
         ⟨3, [0], fun d => odInsert d "tags" "Tags"⟩]).map RegPlugin.hook) [] =
      [("groups", "Groups"), ("tags", "Tags")] := by
  have h := providers_dispatch 0
    [⟨1, [0], fun d => odInsert d "groups" "Groups"⟩,
     ⟨2, [5], fun d => d⟩,
     ⟨3, [0], fun d => odInsert d "tags" "Tags"⟩] []
  refine ⟨rfl, ?_⟩
  rw [h.2.2.1]
  rfl

/-! ## Authorization dispatch -/

/-- The dictionary an auth function returns: `success` is its explicit
allow/deny verdict. -/
structure AuthDict where
  success : Bool
  deriving DecidableEq

inductive AuthError where
  | notAuthorized
  | denied
  deriving DecidableEq

/-- Modelled from the spec: an auth function registered through
`IAuthFunctions.get_auth_functions` — its body, plus whether it is
decorated with `auth_allow_anonymous_access`.  A body returning `none`
models an auth function with no explicit success result. -/
structure AuthFunction where
  allowAnonymous : Bool
  fn : Unit → Option AuthDict

/-- Whether the auth function's body returns an explicit success. -/
def authExplicitSuccess (f : AuthFunction) : Bool :=
  match f.fn () with
  | some r => r.success
  | none => false

/-- Modelled from the spec: the auth dispatcher.  For an anonymous
request it raises `NotAuthorized` before calling the auth function
unless the function opted in to anonymous access; otherwise it runs
the function, and anything short of an explicit success is a denial. -/
def authOutcome (anonymous : Bool) (f : AuthFunction) : Except AuthError Unit :=
  if anonymous && !f.allowAnonymous then
    .error .notAuthorized
  else
    match f.fn () with
    | some r => if r.success then .ok () else .error .denied
    | none => .error .denied

/-- C7: for an anonymous request, an auth function not decorated for
anonymous access yields `NotAuthorized` whatever its body is — the
check happens before the function is invoked — and for any request,
absence of an explicit success result defaults to deny. -/
theorem auth_anonymous_default_deny (f : AuthFunction)
    (hf : f.allowAnonymous = false) :
    authOutcome true f = Except.error AuthError.notAuthorized ∧
    (∀ g : Unit → Option AuthDict,
      authOutcome true { f with fn := g } =
        Except.error AuthError.notAuthorized) ∧
    (∀ (g : AuthFunction) (anon : Bool), authExplicitSuccess g = false →
      authOutcome anon g ≠ Except.ok ()) := by
  refine ⟨by simp [authOutcome, hf], fun g => by simp [authOutcome, hf], ?_⟩
  intro g anon hg
  unfold authOutcome
  by_cases h1 : anon && !g.allowAnonymous
  · simp [h1]
  · rw [if_neg (by simpa using h1)]
    unfold authExplicitSuccess at hg
    rcases hfn : g.fn () with _ | r
    · simp [hfn]
    · rw [hfn] at hg
      have hrs : r.success = false := hg
      simp [hfn, hrs]

/-- Witness for C7: an undecorated auth function whose body always
allows is still refused for an anonymous request, and a function with
no explicit success result is denied for a logged-in request. -/
theorem auth_anonymous_default_deny_witness :
    authOutcome true ⟨false, fun _ => some ⟨true⟩⟩ =
      Except.error AuthError.notAuthorized ∧
    authOutcome false ⟨false, fun _ => none⟩ ≠ Except.ok () := by
  refine ⟨(auth_anonymous_default_deny ⟨false, fun _ => some ⟨true⟩⟩ rfl).1, ?_⟩
  exact (auth_anonymous_default_deny ⟨false, fun _ => some ⟨true⟩⟩ rfl).2.2
    ⟨false, fun _ => none⟩ false rfl

/-! ## Claim theorems: Interface capability checks and default hooks -/

/-- C8: `implemented_by` raises `TypeError` on a non-class argument,
returns `True` on a class whose `_implements` set contains the
interface, and returns `False` — rather than raising — on a class with
no `_implements` attribute. -/
theorem implementedBy_cases (iface : Nat) (s : List Nat)
    (hmem : iface ∈ s) :
    implementedBy iface PyVal.nonClass = Except.error PyError.typeError ∧
    implementedBy iface (PyVal.cls (some s)) = Except.ok true ∧
    implementedBy iface (PyVal.cls none) = Except.ok false := by
  refine ⟨rfl, ?_, rfl⟩
  simp [implementedBy, hmem]

/-- Witness for C8 at interface 0 and declared set `[0, 1]`. -/
theorem implementedBy_cases_witness :
    implementedBy 0 PyVal.nonClass = Except.error PyError.typeError ∧
    implementedBy 0 (PyVal.cls (some [0, 1])) = Except.ok true ∧
    implementedBy 0 (PyVal.cls none) = Except.ok false :=
  implementedBy_cases 0 [0, 1] (by decide)

/-- C9: `provided_by(instance)` is exactly
`implemented_by(instance.__class__)`, and it never consults the
instance's own attributes: capability membership is decided by
interface identity in the class-level declared set. -/
theorem providedBy_eq_implementedBy (iface : Nat) (inst : PyInstance) :
    providedBy iface inst = implementedBy iface inst.cls ∧
    (∀ a : Option (List Nat),
      providedBy iface { inst with instAttr := a } = providedBy iface inst) :=
  ⟨rfl, fun _ => rfl⟩

/-- C10: every default filter-style hook body is the identity on its
transformed argument — `dataset_facets` returns `facets_dict`,
`before_map` returns `map`, `filter` returns `stream`, and `abort`
returns the tuple `(status_code, detail, headers, comment)` unchanged
— so a plugin implementing an interface without overriding a hook
leaves the accumulated value unmodified. -/
theorem default_hooks_identity {μ σ : Type} (d : Facets) (pt : String)
    (m : μ) (s : σ) (sc : Nat) (detail : String)
    (hdrs : List (String × String)) (comment : String) :
    IFacets.dataset_facets d pt = d ∧
    IRoutes.before_map m = m ∧
    IGenshiStreamFilter.filter s = s ∧
    IAuthenticator.abort sc detail hdrs comment = (sc, detail, hdrs, comment) :=
  ⟨rfl, rfl, rfl, rfl⟩

end CkanPlugins

